import Mathlib

/-! hwddns: public-address discovery, extraction and validation

A shallow embedding of `main.go`: the provider probe (`fetchIPFromService`), the
fallback resolvers (`getIPv4Address`, `getIPv6Address`, `getPublicIP`), the
validator (`isValidIP`) and the control flow of `main`.

Text is a list of characters (Go runes); a response body is taken to be valid
UTF-8.  The network is a function from URL and transport policy to the outcome of the
GET, and the resolvers return, next to their Go result, the list of URLs they probed.
The two library routines the program leans on are embedded as well:

* `regexp.FindString` with Go's leftmost-first (backtracking-priority) semantics,
  as a list-of-successes matcher over the expression tree of the two patterns: the
  leftmost start position wins, then the first alternative, then the longer repetition;
* `net.ParseIP` (that is `netip.ParseAddr` followed by the zone check and `As16`),
  transliterated loop by loop.  Both work on bytes in Go; a character outside ASCII
  is rejected or skipped by every test below exactly as each of its bytes would be.
-/

set_option maxRecDepth 100000

namespace Hwddns

/-! ## Text helpers -/

/-- Go `unicode.IsSpace`: the white space characters `strings.TrimSpace` removes. -/
def isSpace (c : Char) : Bool :=
  let n := c.toNat
  n == 0x09 || n == 0x0A || n == 0x0B || n == 0x0C || n == 0x0D || n == 0x20 ||
  n == 0x85 || n == 0xA0 || n == 0x1680 || (0x2000 ≤ n && n ≤ 0x200A) ||
  n == 0x2028 || n == 0x2029 || n == 0x202F || n == 0x205F || n == 0x3000

/-- Go `strings.TrimSpace`: drop leading and trailing white space. -/
def trimSpace (s : List Char) : List Char :=
  ((s.dropWhile isSpace).reverse.dropWhile isSpace).reverse

/-! ## Regular expressions (Go `regexp`, leftmost-first) -/

/-- Syntax of the regular expressions used by the program.  A character class is
a list of inclusive code-point ranges; `rep n k r` is `r{n,n+k}` (greedy). -/
inductive Regex where
  | cls (ranges : List (Nat × Nat))
  | wordBoundary
  | seq (a b : Regex)
  | alt (a b : Regex)
  | rep (n k : Nat) (r : Regex)
  | plus (r : Regex)

/-- A position in the text: the character just before it and the text after it. -/
structure Pos where
  prev : Option Char
  rest : List Char
deriving DecidableEq, Repr

/-- Class membership of a character. -/
def inClass (ranges : List (Nat × Nat)) (c : Char) : Bool :=
  ranges.any (fun r => r.1 ≤ c.toNat && c.toNat ≤ r.2)

/-- ASCII word character `[0-9A-Za-z_]`, the notion `\b` uses in Go. -/
def isWordChar (c : Char) : Bool :=
  inClass [(48, 57), (65, 90), (95, 95), (97, 122)] c

/-- Is the character an ASCII word character (false when there is none). -/
def wordSide : Option Char → Bool
  | none => false
  | some c => isWordChar c

/-- Is the position at an ASCII word boundary (`\b`). -/
def atWordBoundary (p : Pos) : Bool :=
  wordSide p.prev != wordSide p.rest.head?

/-- Greedy optional iterations: up to `k` more iterations, more preferred. -/
def optRun (m : Pos → List Pos) : Nat → Pos → List Pos
  | 0, p => [p]
  | k + 1, p => (m p).flatMap (optRun m k) ++ [p]

/-- Greedy bounded repetition: `n` mandatory iterations, then up to `k` optional
ones (the expansion Go's regexp simplifier gives `r{n,n+k}`). -/
def repeatRun (m : Pos → List Pos) : Nat → Nat → Pos → List Pos
  | 0, k, p => optRun m k p
  | n + 1, k, p => (m p).flatMap (repeatRun m n k)

/-- Greedy unbounded repetition (zero or more), iterations that consume text only;
the fuel is the length of the remaining text. -/
def starRun (m : Pos → List Pos) : Nat → Pos → List Pos
  | 0, p => [p]
  | f + 1, p =>
    ((m p).filter (fun q => decide (q.rest.length < p.rest.length))).flatMap (starRun m f) ++ [p]

/-- All the ways the expression matches at a position, as the positions after the
match, in the order a backtracking search finds them (first alternative first,
longer repetition first). -/
def Regex.run : Regex → Pos → List Pos
  | .cls ranges, p =>
    match p.rest with
    | [] => []
    | c :: cs => if inClass ranges c then [⟨some c, cs⟩] else []
  | .wordBoundary, p => if atWordBoundary p then [p] else []
  | .seq a b, p => (a.run p).flatMap b.run
  | .alt a b, p => a.run p ++ b.run p
  | .rep n k r, p => repeatRun r.run n k p
  | .plus r, p => (r.run p).flatMap (fun q => starRun r.run q.rest.length q)

/-- The text of the first match starting at this position, if there is one. -/
def matchHere (re : Regex) (prev : Option Char) (s : List Char) : Option (List Char) :=
  match (re.run ⟨prev, s⟩).head? with
  | none => none
  | some q => some (s.take (s.length - q.rest.length))

/-- Leftmost match: try every start position from left to right. -/
def findFrom (re : Regex) : Option Char → List Char → Option (List Char)
  | prev, [] => matchHere re prev []
  | prev, c :: cs =>
    match matchHere re prev (c :: cs) with
    | some m => some m
    | none => findFrom re (some c) cs

/-- Go `(*Regexp).FindString`: the text of the leftmost match, or the empty string. -/
def findString (re : Regex) (s : List Char) : List Char :=
  (findFrom re none s).getD []

/-- Sequence of several expressions (the empty sequence matches the empty text). -/
def seqs : List Regex → Regex
  | [] => .rep 0 0 .wordBoundary
  | [r] => r
  | r :: rs => .seq r (seqs rs)

/-- Alternation of several expressions, earlier ones preferred. -/
def alts : List Regex → Regex
  | [] => .cls []
  | [r] => r
  | r :: rs => .alt r (alts rs)

/-- Single character. -/
def chr (c : Char) : Regex := .cls [(c.toNat, c.toNat)]

/-- The class `\d`. -/
def digit : Regex := .cls [(48, 57)]

/-- The pattern `\b(?:\d{1,3}\.){3}\d{1,3}\b`. -/
def reV4 : Regex :=
  seqs [.wordBoundary, .rep 3 0 (.seq (.rep 1 2 digit) (chr '.')), .rep 1 2 digit, .wordBoundary]

/-- Literal text. -/
def lit (cs : List Char) : Regex := seqs (cs.map chr)

/-- The optional expression `r?`, written `r{0,1}`. -/
def opt (r : Regex) : Regex := .rep 0 1 r

/-- The class `[0-9a-fA-F]`. -/
def hexDigit : Regex := .cls [(48, 57), (97, 102), (65, 70)]

/-- The group `[0-9a-fA-F]{1,4}`. -/
def hex14 : Regex := .rep 1 3 hexDigit

/-- The group `[0-9a-fA-F]{1,4}:`. -/
def hexColon : Regex := .seq hex14 (chr ':')

/-- The group `:[0-9a-fA-F]{1,4}`. -/
def colonHex : Regex := .seq (chr ':') hex14

/-- The octet `25[0-5]|(2[0-4]|1?[0-9])?[0-9]`. -/
def octet : Regex :=
  .alt (seqs [chr '2', chr '5', .cls [(48, 53)]])
    (.seq (opt (.alt (.seq (chr '2') (.cls [(48, 52)])) (.seq (opt (chr '1')) digit))) digit)

/-- The dotted quad `(octet\.){3}octet`. -/
def dottedQuad : Regex := .seq (.rep 3 0 (.seq octet (chr '.'))) octet

/-- The IPv6 pattern of `fetchIPFromService`, its twelve alternatives in source order. -/
def reV6 : Regex :=
  alts [
    .seq (.rep 7 0 hexColon) hex14,
    .seq (.rep 1 6 hexColon) (chr ':'),
    seqs [.rep 1 5 hexColon, chr ':', hex14],
    .seq (.rep 1 4 hexColon) (.rep 1 1 colonHex),
    .seq (.rep 1 3 hexColon) (.rep 1 2 colonHex),
    .seq (.rep 1 2 hexColon) (.rep 1 3 colonHex),
    .seq (.rep 1 1 hexColon) (.rep 1 4 colonHex),
    seqs [hex14, chr ':', .rep 1 5 colonHex],
    .seq (chr ':') (.alt (.rep 1 6 colonHex) (chr ':')),
    seqs [lit ['f', 'e', '8', '0', ':'], .rep 0 4 (.seq (chr ':') (.rep 0 4 hexDigit)), chr '%',
      .plus (.cls [(48, 57), (97, 122), (65, 90)])],
    seqs [lit [':', ':'],
      opt (seqs [lit ['f', 'f', 'f', 'f'], opt (.seq (chr ':') (.rep 1 3 (chr '0'))), chr ':']),
      dottedQuad],
    seqs [.rep 1 3 hexColon, chr ':', dottedQuad]]

/-! ## The provider probe -/

/-- Go `error` values the program produces or passes on. -/
inductive GoError where
  | transport
  | badStatus (code : Nat)
  | readBody
  | noAddress
  | allV4Failed
  | allV6Failed
  | dnsUpdate
deriving DecidableEq, Repr

/-- What `client.Get` followed by `io.ReadAll` gives for one request: a transport
error, or a status code with the body (`none` when reading the body fails). -/
inductive HttpResult where
  | failed
  | response (status : Nat) (body : Option (List Char))
deriving DecidableEq, Repr

/-- The lookup providers: what a GET of the URL yields under the transport policy. -/
abbrev Network := String → Bool → HttpResult

/-- A Go `(string, error)` result. -/
structure Result where
  ip : List Char
  err : Option GoError
deriving DecidableEq, Repr

/-- Extraction pattern selection of `fetchIPFromService`. -/
def patternFor (ipType : String) : Regex :=
  if ipType = "v4" then reV4 else reV6

/-- Embedding of `fetchIPFromService`: one bounded-time GET, then the first pattern
match in the trimmed body. -/
def fetchIPFromService (net : Network) (url ipType : String) (skipTLS : Bool) : Result :=
  match net url skipTLS with
  | .failed => ⟨[], some .transport⟩
  | .response status body =>
    if status ≠ 200 then ⟨[], some (.badStatus status)⟩
    else
      match body with
      | none => ⟨[], some .readBody⟩
      | some b =>
        let content := trimSpace b
        let ip := findString (patternFor ipType) content
        if ip = [] then ⟨[], some .noAddress⟩ else ⟨ip, none⟩

/-! ## The resolver -/

/-- The `for _, service := range services` loop shared by both resolvers: the result
and the URLs probed, in order. -/
def tryServices (net : Network) (ipType : String) (skipTLS : Bool) (failure : GoError) :
    List String → Result × List String
  | [] => (⟨[], some failure⟩, [])
  | service :: rest =>
    let r := fetchIPFromService net service ipType skipTLS
    if r.err = none ∧ r.ip ≠ [] then (⟨r.ip, none⟩, [service])
    else
      let out := tryServices net ipType skipTLS failure rest
      (out.1, service :: out.2)

/-- Provider list of `getIPv4Address`. -/
def servicesV4 : List String :=
  ["http://cip.cc", "http://ip.3322.net", "http://4.ipw.cn",
   "http://v4.ip.zxinc.org/info.php?type=json"]

/-- Provider list of `getIPv6Address`. -/
def servicesV6 : List String :=
  ["http://6.ipw.cn", "http://v6.ident.me", "http://ipv6.icanhazip.com",
   "http://v6.ip.zxinc.org/info.php?type=json"]

/-- Embedding of `getIPv4Address`, with the list of URLs it probed. -/
def getIPv4Address (net : Network) (skipTLS : Bool) : Result × List String :=
  tryServices net "v4" skipTLS .allV4Failed servicesV4

/-- Embedding of `getIPv6Address`, with the list of URLs it probed. -/
def getIPv6Address (net : Network) (skipTLS : Bool) : Result × List String :=
  tryServices net "v6" skipTLS .allV6Failed servicesV6

/-- Embedding of `getPublicIP`, with the list of URLs it probed. -/
def getPublicIP (net : Network) (ipType : String) (skipTLS : Bool) : Result × List String :=
  if ipType = "v6" then getIPv6Address net skipTLS else getIPv4Address net skipTLS

/-- Provider list selected by `getPublicIP`. -/
def servicesFor (ipType : String) : List String :=
  if ipType = "v6" then servicesV6 else servicesV4

/-! ## The validator: `net.ParseIP`, `To4`, `To16` -/

/-- The test `c >= '0' && c <= '9'`. -/
def isDigit (c : Char) : Bool := decide (48 ≤ c.toNat) && decide (c.toNat ≤ 57)

/-- Loop of `netip.parseIPv4Fields` over the remaining text.  `prev` is the byte
before the current one (`none` at index 0), `fields` the octets stored so far (their
number is the Go variable `pos`).  `none` is a parse error. -/
def parseIPv4Loop : List Char → Option Char → Nat → Nat → List Nat → Option (List Nat)
  | [], _, val, _, fields => if fields.length < 3 then none else some (fields ++ [val])
  | c :: cs, prev, val, digLen, fields =>
    if isDigit c then
      if digLen = 1 ∧ val = 0 then none
      else if val * 10 + (c.toNat - 48) > 255 then none
      else parseIPv4Loop cs (some c) (val * 10 + (c.toNat - 48)) (digLen + 1) fields
    else if c = '.' then
      if prev = none ∨ cs = [] ∨ prev = some '.' then none
      else if fields.length = 3 then none
      else parseIPv4Loop cs (some c) 0 0 (fields ++ [val])
    else none

/-- Go `netip.parseIPv4Fields`: the four octets of a dotted-decimal text. -/
def parseIPv4Fields (s : List Char) : Option (List Nat) :=
  parseIPv4Loop s none 0 0 []

/-- A parsed `netip.Addr`: its 16-byte form (`As16`) and its zone. -/
structure Addr where
  as16 : List Nat
  zone : List Char
deriving DecidableEq, Repr

/-- Go `netip.AddrFrom4` seen through `As16`: the IPv4-mapped IPv6 form. -/
def addrFrom4 (fields : List Nat) : Addr :=
  ⟨[0, 0, 0, 0, 0, 0, 0, 0, 0, 0, 255, 255] ++ fields, []⟩

/-- Go `netip.parseIPv4`. -/
def parseIPv4 (s : List Char) : Option Addr :=
  (parseIPv4Fields s).map addrFrom4

/-- Value of a hexadecimal digit, `none` for any other character. -/
def hexVal (c : Char) : Option Nat :=
  let n := c.toNat
  if 48 ≤ n ∧ n ≤ 57 then some (n - 48)
  else if 97 ≤ n ∧ n ≤ 102 then some (n - 97 + 10)
  else if 65 ≤ n ∧ n ≤ 70 then some (n - 65 + 10)
  else none

/-- Inner loop of `netip.parseIPv6` reading one hex group: the number of digits,
the accumulated `uint32` value and the text left; `none` is a parse error. -/
def scanHex : List Char → Nat → Nat → Option (Nat × Nat × List Char)
  | [], off, acc => some (off, acc, [])
  | c :: cs, off, acc =>
    match hexVal c with
    | none => some (off, acc, c :: cs)
    | some v =>
      if off > 3 then none
      else if (acc * 16 + v) % 2 ^ 32 > 65535 then none
      else scanHex cs (off + 1) ((acc * 16 + v) % 2 ^ 32)

/-- Write a run of bytes into the array from index `i` on. -/
def writeAt : List Nat → Nat → List Nat → List Nat
  | ip, _, [] => ip
  | ip, i, b :: bs => writeAt (ip.set i b) (i + 1) bs

/-- State of the main loop of `netip.parseIPv6` when it ends. -/
structure V6Loop where
  ip : List Nat
  i : Nat
  ellipsis : Option Nat
  s : List Char
deriving DecidableEq, Repr

/-- Main loop `for i < 16` of `netip.parseIPv6`; every iteration advances `i` by two,
so eight units of fuel cover it.  `none` is a parse error. -/
def parseIPv6Loop : Nat → List Nat → Nat → Option Nat → List Char → Option V6Loop
  | 0, ip, i, ellipsis, s => some ⟨ip, i, ellipsis, s⟩
  | fuel + 1, ip, i, ellipsis, s =>
    if ¬ i < 16 then some ⟨ip, i, ellipsis, s⟩
    else
      match scanHex s 0 0 with
      | none => none
      | some (off, acc, rest) =>
        if off = 0 then none
        else if rest.head? = some '.' then
          if ellipsis = none ∧ i ≠ 12 then none
          else if i + 4 > 16 then none
          else
            match parseIPv4Fields s with
            | none => none
            | some fields => some ⟨writeAt ip i fields, i + 4, ellipsis, []⟩
        else
          let ip2 := (ip.set i (acc / 256 % 256)).set (i + 1) (acc % 256)
          match rest with
          | [] => some ⟨ip2, i + 2, ellipsis, []⟩
          | c :: s1 =>
            if c ≠ ':' then none
            else
              match s1 with
              | [] => none
              | c1 :: s2 =>
                if c1 = ':' then
                  if ellipsis ≠ none then none
                  else
                    match s2 with
                    | [] => some ⟨ip2, i + 2, some (i + 2), []⟩
                    | _ :: _ => parseIPv6Loop fuel ip2 (i + 2) (some (i + 2)) s2
                else parseIPv6Loop fuel ip2 (i + 2) ellipsis s1

/-- The copy loop `for j := i - 1; j >= ellipsis; j-- \x7b ip[j+n] = ip[j] \x7d`, with
`k` iterations left. -/
def expandLoop (n ellipsis : Nat) : Nat → List Nat → List Nat
  | 0, ip => ip
  | k + 1, ip => expandLoop n ellipsis k (ip.set (ellipsis + k + n) (ip.getD (ellipsis + k) 0))

/-- The call `clear(ip[start : start+k])`. -/
def clearRange : Nat → Nat → List Nat → List Nat
  | _, 0, ip => ip
  | start, k + 1, ip => clearRange (start + 1) k (ip.set start 0)

/-- Split off the zone at the first `%`: the text before it, and the text after it
when there is one. -/
def splitZone : List Char → List Char × Option (List Char)
  | [] => ([], none)
  | c :: cs =>
    if c = '%' then ([], some cs)
    else ((c :: (splitZone cs).1), (splitZone cs).2)

/-- The leading-ellipsis test of `netip.parseIPv6`: the initial `ellipsis` and the
text after a leading `::`. -/
def leadingEllipsis : List Char → Option Nat × List Char
  | ':' :: ':' :: rest => (some 0, rest)
  | s => (none, s)

/-- Tail of `netip.parseIPv6` after the zone has been split off. -/
def parseIPv6Body (s zone : List Char) : Option Addr :=
  let zeros := List.replicate 16 0
  let ellipsis := (leadingEllipsis s).1
  let s1 := (leadingEllipsis s).2
  if ellipsis = some 0 ∧ s1 = [] then some ⟨zeros, zone⟩
  else
    match parseIPv6Loop 8 zeros 0 ellipsis s1 with
    | none => none
    | some st =>
      if st.s ≠ [] then none
      else if st.i < 16 then
        match st.ellipsis with
        | none => none
        | some e => some ⟨clearRange e (16 - st.i) (expandLoop (16 - st.i) e (st.i - e) st.ip), zone⟩
      else if st.ellipsis ≠ none then none
      else some ⟨st.ip, zone⟩

/-- Go `netip.parseIPv6`. -/
def parseIPv6 (s : List Char) : Option Addr :=
  match splitZone s with
  | (body, none) => parseIPv6Body body []
  | (body, some zone) => if zone = [] then none else parseIPv6Body body zone

/-- The dispatch loop of `netip.ParseAddr` over the text still to scan. -/
def parseAddrScan (whole : List Char) : List Char → Option Addr
  | [] => none
  | c :: cs =>
    if c = '.' then parseIPv4 whole
    else if c = ':' then parseIPv6 whole
    else if c = '%' then none
    else parseAddrScan whole cs

/-- Go `netip.ParseAddr`. -/
def parseAddr (s : List Char) : Option Addr := parseAddrScan s s

/-- Go `net.ParseIP`: the 16-byte form, `none` for nil (unparsable, or with a zone). -/
def parseIP (s : List Char) : Option (List Nat) :=
  match parseAddr s with
  | none => none
  | some a => if a.zone ≠ [] then none else some a.as16

/-- Go `IP.To4`: the 4-byte form, `none` for nil. -/
def to4 (ip : List Nat) : Option (List Nat) :=
  if ip.length = 4 then some ip
  else if ip.length = 16 ∧ (ip.take 10).all (fun b => b == 0) ∧ ip.getD 10 0 = 255 ∧
      ip.getD 11 0 = 255 then some ((ip.drop 12).take 4)
  else none

/-- Go `IP.To16`: the 16-byte form, `none` for nil. -/
def to16 (ip : List Nat) : Option (List Nat) :=
  if ip.length = 4 then some ([0, 0, 0, 0, 0, 0, 0, 0, 0, 0, 255, 255] ++ ip)
  else if ip.length = 16 then some ip
  else none

/-- Embedding of `isValidIP`: parse, then the family test on the 4-byte form. -/
def isValidIP (ip : List Char) (ipType : String) : Bool :=
  match parseIP ip with
  | none => false
  | some parsedIP =>
    if ipType = "v4" then (to4 parsedIP).isSome
    else (to4 parsedIP).isNone && (to16 parsedIP).isSome

/-! ## The entry point -/

/-- Command-line flags after `flag.Parse`. -/
structure Flags where
  ak : String
  sk : String
  projectId : String
  regionName : String
  zoneId : String
  recordSetId : String
  publicIP : List Char
  ipType : String
  desc : String
  skipTLS : Bool

/-- The cloud SDK behind `createDNSClient` and `updateDNSRecord`: whether a client
can be built from the credentials, and the outcome of the record update. -/
structure DnsSdk where
  createDNSClient : String → String → String → String → Bool → Bool
  updateDNSRecord : String → String → List Char → Option GoError

/-- Outward actions of one run, in order. -/
inductive Event where
  | probe (url : String)
  | createClient
  | updateRecord (ip : List Char)
deriving DecidableEq, Repr

/-- The address `main` settles on (`none` when it exits first) and the probes made. -/
def currentIP (net : Network) (f : Flags) : Option (List Char) × List Event :=
  if f.publicIP = [] then
    let out := getPublicIP net f.ipType f.skipTLS
    if out.1.err ≠ none then (none, out.2.map Event.probe)
    else (some out.1.ip, out.2.map Event.probe)
  else if isValidIP f.publicIP f.ipType = false then (none, [])
  else (some f.publicIP, [])

/-- Embedding of `main` after flag parsing: the exit code and the outward actions taken. -/
def main (net : Network) (sdk : DnsSdk) (f : Flags) : Nat × List Event :=
  if f.ak = "" ∨ f.sk = "" ∨ f.projectId = "" ∨ f.regionName = "" ∨ f.zoneId = "" ∨
      f.recordSetId = "" then (1, [])
  else if f.ipType ≠ "v4" ∧ f.ipType ≠ "v6" then (1, [])
  else
    match currentIP net f with
    | (none, events) => (1, events)
    | (some ip, events) =>
      if sdk.createDNSClient f.ak f.sk f.projectId f.regionName f.skipTLS = false then
        (1, events ++ [Event.createClient])
      else
        match sdk.updateDNSRecord f.zoneId f.recordSetId ip with
        | some _ => (1, events ++ [Event.createClient, Event.updateRecord ip])
        | none => (0, events ++ [Event.createClient, Event.updateRecord ip])

/-! ## Vocabulary of the specification -/

/-- A group of one to three decimal digits. -/
def isGroup (g : List Char) : Bool :=
  decide (1 ≤ g.length) && decide (g.length ≤ 3) && g.all isDigit

/-- Four groups joined by dots. -/
def dotted (g1 g2 g3 g4 : List Char) : List Char :=
  g1 ++ '.' :: (g2 ++ '.' :: (g3 ++ '.' :: g4))

/-- Decimal value of a digit group. -/
def groupValue (g : List Char) : Nat :=
  g.foldl (fun v c => v * 10 + (c.toNat - 48)) 0

/-- A decimal octet: a group of value at most 255 written without a leading zero. -/
def isOctet (g : List Char) : Bool :=
  isGroup g && (decide (g.length = 1) || decide (g.head? ≠ some '0')) && decide (groupValue g ≤ 255)

/-- A run of four dot-separated digit groups. -/
def IsRun (a : List Char) : Prop :=
  ∃ g1 g2 g3 g4, isGroup g1 = true ∧ isGroup g2 = true ∧ isGroup g3 = true ∧
    isGroup g4 = true ∧ a = dotted g1 g2 g3 g4

/-- The run `a` sits between `pre` and `post` with no ASCII word character touching
it on either side. -/
def Delimited (pre a post : List Char) : Prop :=
  IsRun a ∧ wordSide pre.getLast? = false ∧ wordSide post.head? = false

/-- ASCII letter or underscore. -/
def isLetterOrUnderscore (c : Char) : Bool :=
  inClass [(65, 90), (95, 95), (97, 122)] c

/-- Is the character an ASCII letter or underscore (false when there is none). -/
def letterSide : Option Char → Bool
  | none => false
  | some c => isLetterOrUnderscore c

/-- The text does not start with a decimal digit. -/
def NoDigitHead (x : List Char) : Prop := ∀ c, x.head? = some c → isDigit c = false

/-- The character before the position reached after reading `pre`. -/
def prevAt (prev : Option Char) (pre : List Char) : Option Char :=
  match pre.getLast? with
  | some c => some c
  | none => prev

/-- The 16-byte address is IPv4-mapped: ten zero bytes, then `ff ff`. -/
def isV4Mapped (ip : List Nat) : Bool :=
  (ip.take 10).all (fun b => b == 0) && decide (ip.getD 10 0 = 255) && decide (ip.getD 11 0 = 255)

/-- A network answering every request with status 200 and the given body. -/
def always200 (body : List Char) : Network := fun _ _ => HttpResult.response 200 (some body)

/-- A network whose first IPv4 provider times out and whose second one answers with a
small JSON document. -/
def timeoutThenJson : Network := fun url _ =>
  if url = "http://ip.3322.net" then
    HttpResult.response 200 (some "\x7b\"ip\":\"192.0.2.55\"\x7d".toList)
  else HttpResult.failed

/-- A network on which every request fails. -/
def unreachable : Network := fun _ _ => HttpResult.failed

/-- An SDK that always builds a client and always updates the record. -/
def okSdk : DnsSdk := ⟨fun _ _ _ _ _ => true, fun _ _ _ => none⟩

/-- Flags with all required parameters present, the given family and address. -/
def flagsWith (ipType : String) (ip : List Char) : Flags :=
  ⟨"ak", "sk", "project", "cn-east-3", "zone", "record", ip, ipType, "", false⟩



/-! ## The resolver -/

theorem fetch_cases (net : Network) (url ipType : String) (skipTLS : Bool) :
    ((fetchIPFromService net url ipType skipTLS).err ≠ none ∧
      (fetchIPFromService net url ipType skipTLS).ip = []) ∨
    (∃ body, net url skipTLS = HttpResult.response 200 (some body) ∧
      findString (patternFor ipType) (trimSpace body) ≠ [] ∧
      fetchIPFromService net url ipType skipTLS =
        ⟨findString (patternFor ipType) (trimSpace body), none⟩) := by
  unfold fetchIPFromService
  cases hnet : net url skipTLS with
  | failed => simp
  | response status body =>
    by_cases hs : status = 200
    · subst hs
      cases body with
      | none => simp
      | some b =>
        by_cases hip : findString (patternFor ipType) (trimSpace b) = []
        · simp [hip]
        · right
          exact ⟨b, rfl, hip, by simp [hip]⟩
    · simp [hs]

theorem fetch_ok_ne_nil (net : Network) (url ipType : String) (skipTLS : Bool)
    (h : (fetchIPFromService net url ipType skipTLS).err = none) :
    (fetchIPFromService net url ipType skipTLS).ip ≠ [] := by
  rcases fetch_cases net url ipType skipTLS with ⟨h1, _⟩ | ⟨body, _, h2, h3⟩
  · exact absurd h h1
  · rw [h3]; exact h2

theorem tryServices_all_fail (net : Network) (ipType : String) (skipTLS : Bool)
    (failure : GoError) (l : List String)
    (h : ∀ url ∈ l, (fetchIPFromService net url ipType skipTLS).err ≠ none) :
    tryServices net ipType skipTLS failure l = (⟨[], some failure⟩, l) := by
  induction l with
  | nil => rfl
  | cons a l ih =>
    have ha := h a (List.mem_cons_self a l)
    have ih2 := ih (fun url hu => h url (List.mem_cons_of_mem a hu))
    simp [tryServices, ha, ih2]

theorem tryServices_first_success (net : Network) (ipType : String) (skipTLS : Bool)
    (failure : GoError) (l : List String) (k : Nat) (cand : List Char)
    (hk : k < l.length)
    (hbefore : ∀ j, j < k → (fetchIPFromService net (l.getD j "") ipType skipTLS).err ≠ none)
    (hat : fetchIPFromService net (l.getD k "") ipType skipTLS = ⟨cand, none⟩) :
    tryServices net ipType skipTLS failure l = (⟨cand, none⟩, l.take (k + 1)) := by
  induction l generalizing k with
  | nil => simp at hk
  | cons a l ih =>
    cases k with
    | zero =>
      simp only [List.getD_cons_zero] at hat
      have hne : cand ≠ [] := by
        have := fetch_ok_ne_nil net a ipType skipTLS (by rw [hat])
        rwa [hat] at this
      simp [tryServices, hat, hne]
    | succ k =>
      have h0 := hbefore 0 (Nat.succ_pos k)
      simp only [List.getD_cons_zero] at h0
      have ih2 := ih k (by simpa using hk)
        (fun j hj => by simpa using hbefore (j + 1) (Nat.succ_lt_succ hj))
        (by simpa using hat)
      simp [tryServices, h0, ih2]

theorem tryServices_ok (net : Network) (ipType : String) (skipTLS : Bool)
    (failure : GoError) (l : List String)
    (h : (tryServices net ipType skipTLS failure l).1.err = none) :
    ∃ url ∈ l, (fetchIPFromService net url ipType skipTLS).err = none ∧
      (tryServices net ipType skipTLS failure l).1.ip =
        (fetchIPFromService net url ipType skipTLS).ip := by
  induction l with
  | nil => simp [tryServices] at h
  | cons a l ih =>
    by_cases hc : (fetchIPFromService net a ipType skipTLS).err = none ∧
        (fetchIPFromService net a ipType skipTLS).ip ≠ []
    · exact ⟨a, List.mem_cons_self a l, hc.1, by simp [tryServices, hc]⟩
    · have hstep : (tryServices net ipType skipTLS failure (a :: l)).1 =
          (tryServices net ipType skipTLS failure l).1 := by
        simp only [tryServices]
        rw [if_neg hc]
      rw [hstep] at h ⊢
      obtain ⟨url, hu, h1, h2⟩ := ih h
      exact ⟨url, List.mem_cons_of_mem a hu, h1, h2⟩



/-! ## Characters -/

theorem char_eq_of_toNat {c d : Char} (h : c.toNat = d.toNat) : c = d := by
  rw [← Char.ofNat_toNat c, ← Char.ofNat_toNat d, h]

theorem inClass_digit (c : Char) : inClass [(48, 57)] c = isDigit c := by
  simp [inClass, isDigit]

theorem inClass_chr (d c : Char) : inClass [(d.toNat, d.toNat)] c = decide (c = d) := by
  by_cases h : c = d
  · subst h; simp [inClass]
  · have : c.toNat ≠ d.toNat := fun e => h (char_eq_of_toNat e)
    simp [inClass, h]
    omega

theorem isWordChar_of_isDigit {c : Char} (h : isDigit c = true) : isWordChar c = true := by
  simp [isDigit] at h
  simp [isWordChar, inClass]
  omega

theorem isDigit_of_not_word {c : Char} (h : isWordChar c = false) : isDigit c = false := by
  cases hd : isDigit c with
  | false => rfl
  | true => rw [isWordChar_of_isDigit hd] at h; exact absurd h (by simp)

theorem isDigit_ne_dot {c : Char} (h : isDigit c = true) : c ≠ '.' := by
  intro e; subst e; revert h; decide

/-! ## Membership in the runs of the IPv4 pattern -/

theorem mem_run_seq {a b : Regex} {p q : Pos} :
    q ∈ (Regex.seq a b).run p ↔ ∃ m, m ∈ a.run p ∧ q ∈ b.run m := by
  simp [Regex.run]

theorem mem_run_wordBoundary {p q : Pos} :
    q ∈ Regex.wordBoundary.run p ↔ q = p ∧ atWordBoundary p = true := by
  by_cases h : atWordBoundary p = true <;> simp [Regex.run, h]

theorem mem_run_cls {rs : List (Nat × Nat)} {p q : Pos} :
    q ∈ (Regex.cls rs).run p ↔
      ∃ c, inClass rs c = true ∧ p.rest = c :: q.rest ∧ q.prev = some c := by
  obtain ⟨pp, pr⟩ := p
  obtain ⟨qp, qr⟩ := q
  cases pr with
  | nil => simp [Regex.run]
  | cons c cs =>
    by_cases h : inClass rs c = true
    · simp [Regex.run, h]
      constructor
      · rintro ⟨rfl, rfl⟩; exact ⟨c, h, ⟨rfl, rfl⟩, rfl⟩
      · rintro ⟨d, _, ⟨rfl, rfl⟩, rfl⟩; exact ⟨rfl, rfl⟩
    · simp [Regex.run, h]
      rintro d hd rfl
      exact absurd hd h

theorem mem_run_digit {p q : Pos} :
    q ∈ digit.run p ↔ ∃ c, isDigit c = true ∧ p.rest = c :: q.rest ∧ q.prev = some c := by
  unfold digit
  rw [mem_run_cls]
  simp [inClass_digit]

theorem mem_run_chr {d : Char} {p q : Pos} :
    q ∈ (chr d).run p ↔ p.rest = d :: q.rest ∧ q.prev = some d := by
  unfold chr
  rw [mem_run_cls]
  simp [inClass_chr]

theorem run_rep (n k : Nat) (r : Regex) (p : Pos) :
    (Regex.rep n k r).run p = repeatRun r.run n k p := rfl

theorem mem_repeatRun_one_two {m : Pos → List Pos} {p q : Pos} :
    q ∈ repeatRun m 1 2 p ↔
      ∃ m1, m1 ∈ m p ∧ (q = m1 ∨ ∃ m2, m2 ∈ m m1 ∧ (q = m2 ∨ ∃ m3, m3 ∈ m m2 ∧ q = m3)) := by
  simp only [repeatRun, optRun, List.mem_flatMap, List.mem_append, List.mem_singleton]
  constructor
  · rintro ⟨m1, h1, h⟩
    refine ⟨m1, h1, ?_⟩
    rcases h with ⟨m2, h2, h⟩ | h
    · right
      refine ⟨m2, h2, ?_⟩
      rcases h with ⟨m3, h3, h⟩ | h
      · exact Or.inr ⟨m3, h3, h⟩
      · exact Or.inl h
    · exact Or.inl h
  · rintro ⟨m1, h1, h⟩
    refine ⟨m1, h1, ?_⟩
    rcases h with h | ⟨m2, h2, h⟩
    · exact Or.inr h
    · left
      refine ⟨m2, h2, ?_⟩
      rcases h with h | ⟨m3, h3, h⟩
      · exact Or.inr h
      · exact Or.inl ⟨m3, h3, h⟩

/-- The runs of `\d{1,3}` are the digit groups at the head of the text. -/
theorem mem_run_digits {p q : Pos} :
    q ∈ (Regex.rep 1 2 digit).run p ↔
      ∃ g, isGroup g = true ∧ p.rest = g ++ q.rest ∧ q.prev = g.getLast? := by
  rw [run_rep, mem_repeatRun_one_two]
  constructor
  · rintro ⟨m1, hm1, h⟩
    obtain ⟨c1, hc1, hr1, hp1⟩ := mem_run_digit.mp hm1
    rcases h with rfl | ⟨m2, hm2, h⟩
    · exact ⟨[c1], by simp [isGroup, hc1], by rw [hr1]; rfl, by simp [hp1]⟩
    · obtain ⟨c2, hc2, hr2, hp2⟩ := mem_run_digit.mp hm2
      rcases h with rfl | ⟨m3, hm3, rfl⟩
      · refine ⟨[c1, c2], by simp [isGroup, hc1, hc2], ?_, by simp [hp2]⟩
        rw [hr1, hr2]; rfl
      · obtain ⟨c3, hc3, hr3, hp3⟩ := mem_run_digit.mp hm3
        refine ⟨[c1, c2, c3], by simp [isGroup, hc1, hc2, hc3], ?_, by simp [hp3]⟩
        rw [hr1, hr2, hr3]; rfl
  · rintro ⟨g, hg, hr, hp⟩
    obtain ⟨pp, pr⟩ := p
    obtain ⟨qp, qr⟩ := q
    simp only at hr hp
    subst hr hp
    match g, hg with
    | [c1], hg =>
      simp [isGroup] at hg
      exact ⟨⟨some c1, qr⟩, mem_run_digit.mpr ⟨c1, hg, rfl, rfl⟩, Or.inl rfl⟩
    | [c1, c2], hg =>
      simp [isGroup] at hg
      exact ⟨⟨some c1, c2 :: qr⟩, mem_run_digit.mpr ⟨c1, hg.1, rfl, rfl⟩,
        Or.inr ⟨⟨some c2, qr⟩, mem_run_digit.mpr ⟨c2, hg.2, rfl, rfl⟩, Or.inl rfl⟩⟩
    | [c1, c2, c3], hg =>
      simp [isGroup] at hg
      exact ⟨⟨some c1, c2 :: c3 :: qr⟩, mem_run_digit.mpr ⟨c1, hg.1, rfl, rfl⟩,
        Or.inr ⟨⟨some c2, c3 :: qr⟩, mem_run_digit.mpr ⟨c2, hg.2.1, rfl, rfl⟩,
          Or.inr ⟨⟨some c3, qr⟩, mem_run_digit.mpr ⟨c3, hg.2.2, rfl, rfl⟩, rfl⟩⟩⟩
    | [], hg => simp [isGroup] at hg
    | _ :: _ :: _ :: _ :: _, hg => simp [isGroup] at hg



theorem mem_run_group {p q : Pos} :
    q ∈ (Regex.seq (Regex.rep 1 2 digit) (chr '.')).run p ↔
      ∃ g, isGroup g = true ∧ p.rest = g ++ '.' :: q.rest ∧ q.prev = some '.' := by
  rw [mem_run_seq]
  constructor
  · rintro ⟨m, hm, hq⟩
    obtain ⟨g, hg, hr, _⟩ := mem_run_digits.mp hm
    obtain ⟨hr2, hp2⟩ := mem_run_chr.mp hq
    exact ⟨g, hg, by rw [hr, hr2], hp2⟩
  · rintro ⟨g, hg, hr, hp⟩
    exact ⟨⟨g.getLast?, '.' :: q.rest⟩, mem_run_digits.mpr ⟨g, hg, hr, rfl⟩,
      mem_run_chr.mpr ⟨rfl, hp⟩⟩

theorem mem_repeatRun_three {m : Pos → List Pos} {p q : Pos} :
    q ∈ repeatRun m 3 0 p ↔ ∃ m1, m1 ∈ m p ∧ ∃ m2, m2 ∈ m m1 ∧ q ∈ m m2 := by
  simp [repeatRun, optRun]

theorem isGroup_ne_nil {g : List Char} (hg : isGroup g = true) : g ≠ [] := by
  intro e; subst e; simp [isGroup] at hg

theorem isGroup_all {g : List Char} (hg : isGroup g = true) : ∀ c ∈ g, isDigit c = true := by
  simp [isGroup] at hg
  exact hg.2

theorem isGroup_head {g : List Char} (hg : isGroup g = true) (r : List Char) :
    ∃ c, isDigit c = true ∧ (g ++ r).head? = some c := by
  cases g with
  | nil => exact absurd rfl (isGroup_ne_nil hg)
  | cons c g => exact ⟨c, isGroup_all hg c (List.mem_cons_self c g), rfl⟩

theorem isGroup_last {g : List Char} (hg : isGroup g = true) :
    ∃ c, isDigit c = true ∧ g.getLast? = some c := by
  have hne := isGroup_ne_nil hg
  refine ⟨g.getLast hne, isGroup_all hg _ (List.getLast_mem hne), ?_⟩
  exact List.getLast?_eq_getLast g hne

theorem dotted_append (g1 g2 g3 g4 r : List Char) :
    dotted g1 g2 g3 g4 ++ r = g1 ++ '.' :: (g2 ++ '.' :: (g3 ++ '.' :: (g4 ++ r))) := by
  simp [dotted, List.append_assoc]

theorem getLast?_append_right (x : List Char) {y : List Char} (hy : y ≠ []) :
    (x ++ y).getLast? = y.getLast? := by
  rw [List.getLast?_append]
  cases hl : y.getLast? with
  | none => exact absurd (List.getLast?_eq_none_iff.mp hl) hy
  | some d => rfl

theorem getLast?_cons_right (c : Char) {y : List Char} (hy : y ≠ []) :
    (c :: y).getLast? = y.getLast? :=
  getLast?_append_right [c] hy

theorem dotted_getLast {g1 g2 g3 g4 : List Char} (h4 : g4 ≠ []) :
    (dotted g1 g2 g3 g4).getLast? = g4.getLast? := by
  unfold dotted
  rw [getLast?_append_right g1 (List.cons_ne_nil _ _),
    getLast?_cons_right _ (by simp), getLast?_append_right g2 (List.cons_ne_nil _ _),
    getLast?_cons_right _ (by simp), getLast?_append_right g3 (List.cons_ne_nil _ _),
    getLast?_cons_right _ h4]

/-- The matches of the IPv4 pattern at a position are the runs of four dot-separated
digit groups that start there with no word character touching either end. -/
theorem mem_run_reV4 {p q : Pos} :
    q ∈ reV4.run p ↔
      ∃ a, IsRun a ∧ p.rest = a ++ q.rest ∧ wordSide p.prev = false ∧
        wordSide q.rest.head? = false ∧ q.prev = a.getLast? := by
  have hre : reV4 = Regex.seq Regex.wordBoundary
      (Regex.seq (Regex.rep 3 0 (Regex.seq (Regex.rep 1 2 digit) (chr '.')))
        (Regex.seq (Regex.rep 1 2 digit) Regex.wordBoundary)) := rfl
  rw [hre, mem_run_seq]
  constructor
  · rintro ⟨m0, hm0, h⟩
    obtain ⟨rfl, hb0⟩ := mem_run_wordBoundary.mp hm0
    obtain ⟨m3, hm3, h⟩ := mem_run_seq.mp h
    rw [run_rep, mem_repeatRun_three] at hm3
    obtain ⟨m1, hm1, m2, hm2, hm3⟩ := hm3
    obtain ⟨g1, hg1, hr1, _⟩ := mem_run_group.mp hm1
    obtain ⟨g2, hg2, hr2, _⟩ := mem_run_group.mp hm2
    obtain ⟨g3, hg3, hr3, _⟩ := mem_run_group.mp hm3
    obtain ⟨m4, hm4, h⟩ := mem_run_seq.mp h
    obtain ⟨g4, hg4, hr4, hp4⟩ := mem_run_digits.mp hm4
    obtain ⟨rfl, hb4⟩ := mem_run_wordBoundary.mp h
    have hrest : m0.rest = dotted g1 g2 g3 g4 ++ q.rest := by
      rw [dotted_append, hr1, hr2, hr3, hr4]
    obtain ⟨c1, hc1, hh1⟩ := isGroup_head hg1 ('.' :: m1.rest)
    obtain ⟨c4, hc4, hl4⟩ := isGroup_last hg4
    refine ⟨dotted g1 g2 g3 g4, ⟨g1, g2, g3, g4, hg1, hg2, hg3, hg4, rfl⟩, hrest, ?_, ?_, ?_⟩
    · simp only [atWordBoundary, hr1, hh1, wordSide, isWordChar_of_isDigit hc1] at hb0
      simpa using hb0
    · simp only [atWordBoundary, hp4, hl4, wordSide, isWordChar_of_isDigit hc4] at hb4
      simpa using hb4
    · rw [hp4, dotted_getLast (isGroup_ne_nil hg4)]
  · rintro ⟨a, ⟨g1, g2, g3, g4, hg1, hg2, hg3, hg4, rfl⟩, hr, hw1, hw2, hp⟩
    rw [dotted_append] at hr
    obtain ⟨c1, hc1, hh1⟩ := isGroup_head hg1 ('.' :: (g2 ++ '.' :: (g3 ++ '.' :: (g4 ++ q.rest))))
    obtain ⟨c4, hc4, hl4⟩ := isGroup_last hg4
    rw [dotted_getLast (isGroup_ne_nil hg4)] at hp
    refine ⟨p, mem_run_wordBoundary.mpr ⟨rfl, ?_⟩, ?_⟩
    · show (wordSide p.prev != wordSide p.rest.head?) = true
      rw [hr, hh1, hw1]
      simp [wordSide, isWordChar_of_isDigit hc1]
    · refine mem_run_seq.mpr ⟨⟨some '.', g4 ++ q.rest⟩, ?_, ?_⟩
      · rw [run_rep, mem_repeatRun_three]
        exact ⟨⟨some '.', g2 ++ '.' :: (g3 ++ '.' :: (g4 ++ q.rest))⟩,
          mem_run_group.mpr ⟨g1, hg1, hr, rfl⟩,
          ⟨some '.', g3 ++ '.' :: (g4 ++ q.rest)⟩,
          mem_run_group.mpr ⟨g2, hg2, rfl, rfl⟩,
          mem_run_group.mpr ⟨g3, hg3, rfl, rfl⟩⟩
      · refine mem_run_seq.mpr ⟨q, mem_run_digits.mpr ⟨g4, hg4, rfl, hp⟩,
          mem_run_wordBoundary.mpr ⟨rfl, ?_⟩⟩
        show (wordSide q.prev != wordSide q.rest.head?) = true
        rw [hp, hl4, hw2]
        simp [wordSide, isWordChar_of_isDigit hc4]



/-! ## A delimited run is determined by where it starts -/

theorem noDigitHead_dot (x : List Char) : NoDigitHead ('.' :: x) := by
  intro c h
  simp at h
  subst h
  decide

theorem noDigitHead_of_wordSide {x : List Char} (h : wordSide x.head? = false) :
    NoDigitHead x := by
  intro c hc
  rw [hc] at h
  exact isDigit_of_not_word h

theorem digits_span_unique {g g' x x' : List Char}
    (hg : ∀ c ∈ g, isDigit c = true) (hg' : ∀ c ∈ g', isDigit c = true)
    (hx : NoDigitHead x) (hx' : NoDigitHead x') (h : g ++ x = g' ++ x') :
    g = g' ∧ x = x' := by
  induction g generalizing g' with
  | nil =>
    cases g' with
    | nil => exact ⟨rfl, h⟩
    | cons c g' =>
      simp only [List.nil_append, List.cons_append] at h
      have := hx c (by rw [h]; rfl)
      rw [hg' c (List.mem_cons_self c g')] at this
      exact absurd this (by simp)
  | cons c g ih =>
    cases g' with
    | nil =>
      simp only [List.nil_append, List.cons_append] at h
      have := hx' c (by rw [← h]; rfl)
      rw [hg c (List.mem_cons_self c g)] at this
      exact absurd this (by simp)
    | cons c' g' =>
      simp only [List.cons_append, List.cons.injEq] at h
      obtain ⟨rfl, h⟩ := h
      obtain ⟨rfl, hx2⟩ := ih (fun d hd => hg d (List.mem_cons_of_mem _ hd))
        (fun d hd => hg' d (List.mem_cons_of_mem _ hd)) h
      exact ⟨rfl, hx2⟩

theorem run_unique {a a' r r' : List Char} (ha : IsRun a) (ha' : IsRun a')
    (hr : wordSide r.head? = false) (hr' : wordSide r'.head? = false)
    (h : a ++ r = a' ++ r') : a = a' ∧ r = r' := by
  obtain ⟨g1, g2, g3, g4, hg1, hg2, hg3, hg4, rfl⟩ := ha
  obtain ⟨k1, k2, k3, k4, hk1, hk2, hk3, hk4, rfl⟩ := ha'
  rw [dotted_append, dotted_append] at h
  obtain ⟨e1, h1⟩ := digits_span_unique (isGroup_all hg1) (isGroup_all hk1)
    (noDigitHead_dot _) (noDigitHead_dot _) h
  obtain ⟨e2, h2⟩ := digits_span_unique (isGroup_all hg2) (isGroup_all hk2)
    (noDigitHead_dot _) (noDigitHead_dot _) (List.cons.inj h1).2
  obtain ⟨e3, h3⟩ := digits_span_unique (isGroup_all hg3) (isGroup_all hk3)
    (noDigitHead_dot _) (noDigitHead_dot _) (List.cons.inj h2).2
  obtain ⟨e4, h4⟩ := digits_span_unique (isGroup_all hg4) (isGroup_all hk4)
    (noDigitHead_of_wordSide hr) (noDigitHead_of_wordSide hr') (List.cons.inj h3).2
  exact ⟨by rw [e1, e2, e3, e4], h4⟩

theorem isRun_ne_nil {a : List Char} (ha : IsRun a) : a ≠ [] := by
  obtain ⟨g1, g2, g3, g4, hg1, _, _, _, rfl⟩ := ha
  cases g1 with
  | nil => exact absurd rfl (isGroup_ne_nil hg1)
  | cons c g1 => simp [dotted]

theorem isRun_head {a : List Char} (ha : IsRun a) (r : List Char) :
    ∃ c, isDigit c = true ∧ (a ++ r).head? = some c := by
  obtain ⟨g1, g2, g3, g4, hg1, _, _, _, rfl⟩ := ha
  rw [dotted_append]
  exact isGroup_head hg1 _

/-! ## Matching at one position and searching from the left -/

theorem matchHere_eq_none {re : Regex} {prev : Option Char} {s : List Char}
    (h : re.run ⟨prev, s⟩ = []) : matchHere re prev s = none := by
  simp [matchHere, h]

theorem matchHere_reV4 {prev : Option Char} {a post : List Char} (ha : IsRun a)
    (hpre : wordSide prev = false) (hpost : wordSide post.head? = false) :
    matchHere reV4 prev (a ++ post) = some a := by
  have hmem : (⟨a.getLast?, post⟩ : Pos) ∈ reV4.run ⟨prev, a ++ post⟩ :=
    mem_run_reV4.mpr ⟨a, ha, rfl, hpre, hpost, rfl⟩
  cases hrun : reV4.run ⟨prev, a ++ post⟩ with
  | nil => rw [hrun] at hmem; exact absurd hmem (List.not_mem_nil _)
  | cons q l =>
    have hq : q ∈ reV4.run ⟨prev, a ++ post⟩ := by rw [hrun]; exact List.mem_cons_self q l
    obtain ⟨a', ha', hr, _, hw, _⟩ := mem_run_reV4.mp hq
    obtain ⟨rfl, hrest⟩ := run_unique ha ha' hpost hw hr
    simp [matchHere, hrun, ← hrest]

theorem reV4_run_nil_of_noDigitHead {p : Pos} (h : NoDigitHead p.rest) : reV4.run p = [] := by
  apply List.eq_nil_iff_forall_not_mem.mpr
  intro q hq
  obtain ⟨a, ha, hr, _, _, _⟩ := mem_run_reV4.mp hq
  obtain ⟨c, hc, hh⟩ := isRun_head ha q.rest
  rw [← hr] at hh
  rw [h c hh] at hc
  exact absurd hc (by simp)

theorem prevAt_nil (prev : Option Char) : prevAt prev [] = prev := rfl

theorem prevAt_cons (prev : Option Char) (c : Char) (pre : List Char) :
    prevAt prev (c :: pre) = prevAt (some c) pre := by
  cases pre with
  | nil => rfl
  | cons d pre =>
    have h : (c :: d :: pre).getLast? = (d :: pre).getLast? :=
      getLast?_cons_right c (List.cons_ne_nil d pre)
    simp only [prevAt, h]
    cases hl : (d :: pre).getLast? with
    | none => exact absurd (List.getLast?_eq_none_iff.mp hl) (List.cons_ne_nil d pre)
    | some e => rfl

theorem prevAt_none (pre : List Char) : prevAt none pre = pre.getLast? := by
  unfold prevAt
  cases pre.getLast? <;> rfl

theorem findFrom_cons_none {re : Regex} {prev : Option Char} {c : Char} {cs : List Char}
    (h : matchHere re prev (c :: cs) = none) :
    findFrom re prev (c :: cs) = findFrom re (some c) cs := by
  simp [findFrom, h]

theorem findFrom_eq_none {re : Regex} (s : List Char) (prev : Option Char)
    (h : ∀ pre rest, s = pre ++ rest → re.run ⟨prevAt prev pre, rest⟩ = []) :
    findFrom re prev s = none := by
  induction s generalizing prev with
  | nil => exact matchHere_eq_none (h [] [] rfl)
  | cons c cs ih =>
    have h0 := matchHere_eq_none (h [] (c :: cs) rfl)
    rw [prevAt_nil] at h0
    rw [findFrom_cons_none h0]
    apply ih
    intro pre rest hs
    have := h (c :: pre) rest (by rw [hs]; rfl)
    rwa [prevAt_cons] at this

theorem findFrom_first {re : Regex} (pre rest : List Char) (prev : Option Char)
    (m : List Char)
    (hbefore : ∀ pre1 rest1, pre ++ rest = pre1 ++ rest1 → pre1.length < pre.length →
      re.run ⟨prevAt prev pre1, rest1⟩ = [])
    (hat : matchHere re (prevAt prev pre) rest = some m) :
    findFrom re prev (pre ++ rest) = some m := by
  induction pre generalizing prev with
  | nil =>
    rw [prevAt_nil] at hat
    cases rest with
    | nil => simpa [findFrom] using hat
    | cons c cs => simp [findFrom, hat]
  | cons c pre ih =>
    have h0 : matchHere re prev (c :: (pre ++ rest)) = none :=
      matchHere_eq_none (hbefore [] (c :: (pre ++ rest)) rfl (by simp))
    rw [List.cons_append, findFrom_cons_none h0]
    apply ih
    · intro pre1 rest1 hs hlt
      have := hbefore (c :: pre1) rest1 (by simp [hs]) (by simpa using hlt)
      rwa [prevAt_cons] at this
    · rwa [prevAt_cons] at hat



/-! ## Trimming -/

theorem dropWhile_append_stop {p : Char → Bool} (x : List Char) {c : Char} {y : List Char}
    (hc : p c = false) : (x ++ c :: y).dropWhile p = x.dropWhile p ++ c :: y := by
  induction x with
  | nil => simp [List.dropWhile, hc]
  | cons d x ih =>
    cases hd : p d with
    | true => simp [List.dropWhile, hd, ih]
    | false => simp [List.dropWhile, hd]

theorem isSpace_of_isDigit {c : Char} (h : isDigit c = true) : isSpace c = false := by
  simp [isDigit] at h
  simp [isSpace]
  omega

/-- Trimming a text whose core starts and ends with a digit trims only the text
around the core. -/
theorem trimSpace_sandwich (pre post : List Char) {a : List Char} {c d : Char}
    (hhead : a.head? = some c) (hlast : a.getLast? = some d)
    (hc : isDigit c = true) (hd : isDigit d = true) :
    trimSpace (pre ++ a ++ post) =
      pre.dropWhile isSpace ++ a ++ (post.reverse.dropWhile isSpace).reverse := by
  obtain ⟨t, rfl⟩ : ∃ t, a = c :: t := by
    cases a with
    | nil => simp at hhead
    | cons e t => simp at hhead; exact ⟨t, by rw [hhead]⟩
  obtain ⟨u, hu⟩ : ∃ u, (c :: t).reverse = d :: u := by
    have hne : (c :: t) ≠ [] := List.cons_ne_nil c t
    have h1 : (c :: t).reverse.head? = some d := by rw [List.head?_reverse]; exact hlast
    cases hr : (c :: t).reverse with
    | nil => rw [hr] at h1; simp at h1
    | cons e u => rw [hr] at h1; simp at h1; exact ⟨u, by rw [h1]⟩
  unfold trimSpace
  have h1 : (pre ++ (c :: t) ++ post).dropWhile isSpace =
      pre.dropWhile isSpace ++ c :: (t ++ post) := by
    rw [List.append_assoc, List.cons_append]
    exact dropWhile_append_stop pre (isSpace_of_isDigit hc)
  rw [h1]
  have h2 : (pre.dropWhile isSpace ++ c :: (t ++ post)).reverse =
      post.reverse ++ d :: (u ++ (pre.dropWhile isSpace).reverse) := by
    rw [← List.cons_append, List.reverse_append, List.reverse_append, hu]
    simp
  rw [h2, dropWhile_append_stop post.reverse (isSpace_of_isDigit hd)]
  rw [List.reverse_append, ← List.cons_append, ← hu]
  simp

theorem isRun_last {a : List Char} (ha : IsRun a) :
    ∃ c, isDigit c = true ∧ a.getLast? = some c := by
  obtain ⟨g1, g2, g3, g4, _, _, _, hg4, rfl⟩ := ha
  rw [dotted_getLast (isGroup_ne_nil hg4)]
  exact isGroup_last hg4

theorem trimSpace_run (pre post : List Char) {a : List Char} (ha : IsRun a) :
    trimSpace (pre ++ a ++ post) =
      pre.dropWhile isSpace ++ a ++ (post.reverse.dropWhile isSpace).reverse := by
  obtain ⟨c, hc, hh⟩ := isRun_head ha []
  obtain ⟨d, hd, hl⟩ := isRun_last ha
  rw [List.append_nil] at hh
  exact trimSpace_sandwich pre post hh hl hc hd

/-! ## The IPv4 probe -/

theorem fetch_v4_found {net : Network} {url : String} {skipTLS : Bool} {body a : List Char}
    (hnet : net url skipTLS = HttpResult.response 200 (some body))
    (hfind : findFrom reV4 none (trimSpace body) = some a) (ha : a ≠ []) :
    fetchIPFromService net url "v4" skipTLS = ⟨a, none⟩ := by
  have hp : patternFor "v4" = reV4 := rfl
  simp [fetchIPFromService, hnet, hp, findString, hfind, ha]

theorem fetch_v4_not_found {net : Network} {url : String} {skipTLS : Bool} {body : List Char}
    (hnet : net url skipTLS = HttpResult.response 200 (some body))
    (hfind : findFrom reV4 none (trimSpace body) = none) :
    fetchIPFromService net url "v4" skipTLS = ⟨[], some GoError.noAddress⟩ := by
  have hp : patternFor "v4" = reV4 := rfl
  simp [fetchIPFromService, hnet, hp, findString, hfind]

theorem head_of_shorter_split {pre rest pre1 rest1 : List Char}
    (h : pre ++ rest = pre1 ++ rest1) (hlt : pre1.length < pre.length) :
    ∃ c, c ∈ pre ∧ rest1.head? = some c := by
  induction pre generalizing pre1 with
  | nil => simp at hlt
  | cons c pre ih =>
    cases pre1 with
    | nil =>
      simp only [List.nil_append, List.cons_append] at h
      exact ⟨c, List.mem_cons_self c pre, by rw [← h]; rfl⟩
    | cons d pre1 =>
      simp only [List.cons_append, List.cons.injEq] at h
      obtain ⟨e, he, hh⟩ := ih h.2 (by simpa using hlt)
      exact ⟨e, List.mem_cons_of_mem c he, hh⟩

/-- The leftmost search finds a delimited run that no digit precedes. -/
theorem findFrom_reV4_after_nondigits {pre a post : List Char} (ha : IsRun a)
    (hpre : ∀ c ∈ pre, isDigit c = false) (hlast : wordSide pre.getLast? = false)
    (hpost : wordSide post.head? = false) :
    findFrom reV4 none (pre ++ a ++ post) = some a := by
  rw [List.append_assoc]
  apply findFrom_first
  · intro pre1 rest1 hs hlt
    apply reV4_run_nil_of_noDigitHead
    obtain ⟨c, hc, hh⟩ := head_of_shorter_split hs hlt
    intro e he
    rw [hh] at he
    cases he
    exact hpre c hc
  · rw [prevAt_none]
    exact matchHere_reV4 ha hlast hpost



/-! ## Parsing dotted decimal text -/

theorem digit_zero_iff {c : Char} (hc : isDigit c = true) : c.toNat - 48 = 0 ↔ c = '0' := by
  simp [isDigit] at hc
  constructor
  · intro h
    apply char_eq_of_toNat
    show c.toNat = 48
    omega
  · rintro rfl; rfl

theorem digit_val_le {c : Char} (hc : isDigit c = true) : c.toNat - 48 ≤ 9 := by
  simp [isDigit] at hc
  omega

/-- Reading one digit group from a fresh field either fails, exactly when the group is
not a decimal octet, or leaves the loop after the group with its value. -/
theorem parseIPv4Loop_group {g : List Char} (hg : isGroup g = true) (rest : List Char)
    (prev : Option Char) (fields : List Nat) :
    parseIPv4Loop (g ++ rest) prev 0 0 fields =
      if isOctet g = true then parseIPv4Loop rest g.getLast? (groupValue g) g.length fields
      else none := by
  match g, hg with
  | [], hg => simp [isGroup] at hg
  | [c1], hg =>
    simp [isGroup] at hg
    have h1 := digit_val_le hg
    have ho : isOctet [c1] = true := by
      simp [isOctet, isGroup, hg, groupValue]; omega
    rw [if_pos ho]
    simp only [List.cons_append, List.nil_append, parseIPv4Loop, hg, if_true]
    rw [if_neg (by simp), if_neg (by omega)]
    simp [groupValue]
  | [c1, c2], hg =>
    simp [isGroup] at hg
    obtain ⟨hc1, hc2⟩ := hg
    have h1 := digit_val_le hc1
    have h2 := digit_val_le hc2
    simp only [List.cons_append, List.nil_append, parseIPv4Loop, hc1, hc2, if_true]
    rw [if_neg (by simp), if_neg (by omega)]
    by_cases hz : c1 = '0'
    · have ho : isOctet [c1, c2] = false := by simp [isOctet, hz]
      rw [ho]
      subst hz
      simp
    · have hv : ¬ (0 * 10 + (c1.toNat - 48) = 0) := by
        intro e
        exact hz ((digit_zero_iff hc1).mp (by omega))
      have ho : isOctet [c1, c2] = true := by
        simp [isOctet, isGroup, hc1, hc2, hz, groupValue]; omega
      rw [if_pos ho, if_neg (by intro e; exact hv e.2), if_neg (by omega)]
      simp [groupValue]
  | [c1, c2, c3], hg =>
    simp [isGroup] at hg
    obtain ⟨hc1, hc2, hc3⟩ := hg
    have h1 := digit_val_le hc1
    have h2 := digit_val_le hc2
    have h3 := digit_val_le hc3
    simp only [List.cons_append, List.nil_append, parseIPv4Loop, hc1, hc2, hc3, if_true]
    rw [if_neg (by simp), if_neg (by omega)]
    by_cases hz : c1 = '0'
    · have ho : isOctet [c1, c2, c3] = false := by simp [isOctet, hz]
      rw [ho]
      subst hz
      simp
    · have hv : ¬ (0 * 10 + (c1.toNat - 48) = 0) := by
        intro e
        exact hz ((digit_zero_iff hc1).mp (by omega))
      rw [if_neg (by intro e; exact hv e.2), if_neg (by omega), if_neg (by simp)]
      by_cases hbig : ((0 * 10 + (c1.toNat - 48)) * 10 + (c2.toNat - 48)) * 10
          + (c3.toNat - 48) > 255
      · have ho : isOctet [c1, c2, c3] = false := by
          simp [isOctet, groupValue]
          intro _ _; omega
        rw [ho, if_pos hbig]
        simp
      · have ho : isOctet [c1, c2, c3] = true := by
          simp [isOctet, isGroup, hc1, hc2, hc3, hz, groupValue]; omega
        rw [if_pos ho, if_neg hbig]
        simp [groupValue]
  | _ :: _ :: _ :: _ :: _, hg => simp [isGroup] at hg



theorem parseIPv4Loop_dot {c : Char} (hc : isDigit c = true) {rest : List Char}
    (hrest : rest ≠ []) (val digLen : Nat) {fields : List Nat} (hf : fields.length ≠ 3) :
    parseIPv4Loop ('.' :: rest) (some c) val digLen fields =
      parseIPv4Loop rest (some '.') 0 0 (fields ++ [val]) := by
  have hd : isDigit '.' = false := by decide
  have hne := isDigit_ne_dot hc
  simp [parseIPv4Loop, hd, hrest, hne, hf]

theorem group_append_ne_nil {g : List Char} (hg : isGroup g = true) (r : List Char) :
    g ++ r ≠ [] := by
  cases g with
  | nil => exact absurd rfl (isGroup_ne_nil hg)
  | cons c g => simp

/-- What `parseIPv4Fields` makes of four dot-separated digit groups. -/
theorem parseIPv4Fields_dotted {g1 g2 g3 g4 : List Char} (hg1 : isGroup g1 = true)
    (hg2 : isGroup g2 = true) (hg3 : isGroup g3 = true) (hg4 : isGroup g4 = true) :
    parseIPv4Fields (dotted g1 g2 g3 g4) =
      if isOctet g1 = true ∧ isOctet g2 = true ∧ isOctet g3 = true ∧ isOctet g4 = true then
        some [groupValue g1, groupValue g2, groupValue g3, groupValue g4]
      else none := by
  obtain ⟨c1, hc1, hl1⟩ := isGroup_last hg1
  obtain ⟨c2, hc2, hl2⟩ := isGroup_last hg2
  obtain ⟨c3, hc3, hl3⟩ := isGroup_last hg3
  unfold parseIPv4Fields dotted
  rw [parseIPv4Loop_group hg1]
  by_cases ho1 : isOctet g1 = true
  swap
  · simp [ho1]
  rw [if_pos ho1, hl1,
    parseIPv4Loop_dot hc1 (group_append_ne_nil hg2 _) _ _ (by simp),
    parseIPv4Loop_group hg2]
  by_cases ho2 : isOctet g2 = true
  swap
  · simp [ho2]
  rw [if_pos ho2, hl2,
    parseIPv4Loop_dot hc2 (group_append_ne_nil hg3 _) _ _ (by simp),
    parseIPv4Loop_group hg3]
  by_cases ho3 : isOctet g3 = true
  swap
  · simp [ho3]
  rw [if_pos ho3, hl3,
    parseIPv4Loop_dot hc3 (isGroup_ne_nil hg4) _ _ (by simp)]
  have h4 := parseIPv4Loop_group hg4 [] (some '.') ([] ++ [groupValue g1] ++ [groupValue g2] ++
    [groupValue g3])
  rw [List.append_nil] at h4
  rw [h4]
  by_cases ho4 : isOctet g4 = true
  swap
  · simp [ho4]
  simp [ho1, ho2, ho3, ho4, parseIPv4Loop]

theorem parseAddrScan_digits (whole : List Char) {g : List Char}
    (hg : ∀ c ∈ g, isDigit c = true) (r : List Char) :
    parseAddrScan whole (g ++ '.' :: r) = parseIPv4 whole := by
  induction g with
  | nil => simp [parseAddrScan]
  | cons c g ih =>
    have hc := hg c (List.mem_cons_self c g)
    have h1 : c ≠ '.' := isDigit_ne_dot hc
    have h2 : c ≠ ':' := by intro e; subst e; revert hc; decide
    have h3 : c ≠ '%' := by intro e; subst e; revert hc; decide
    simp only [List.cons_append, parseAddrScan, h1, h2, h3, if_false]
    exact ih (fun d hd => hg d (List.mem_cons_of_mem c hd))

/-- What `net.ParseIP` makes of four dot-separated digit groups. -/
theorem parseIP_dotted {g1 g2 g3 g4 : List Char} (hg1 : isGroup g1 = true)
    (hg2 : isGroup g2 = true) (hg3 : isGroup g3 = true) (hg4 : isGroup g4 = true) :
    parseIP (dotted g1 g2 g3 g4) =
      if isOctet g1 = true ∧ isOctet g2 = true ∧ isOctet g3 = true ∧ isOctet g4 = true then
        some [0, 0, 0, 0, 0, 0, 0, 0, 0, 0, 255, 255,
          groupValue g1, groupValue g2, groupValue g3, groupValue g4]
      else none := by
  have hscan : parseAddr (dotted g1 g2 g3 g4) = parseIPv4 (dotted g1 g2 g3 g4) := by
    unfold parseAddr
    exact parseAddrScan_digits _ (isGroup_all hg1) _
  unfold parseIP
  rw [hscan]
  unfold parseIPv4
  rw [parseIPv4Fields_dotted hg1 hg2 hg3 hg4]
  by_cases ho : isOctet g1 = true ∧ isOctet g2 = true ∧ isOctet g3 = true ∧ isOctet g4 = true
  · rw [if_pos ho, if_pos ho]
    simp [addrFrom4]
  · rw [if_neg ho, if_neg ho]
    rfl

theorem isOctet_value_le {g : List Char} (h : isOctet g = true) : groupValue g ≤ 255 := by
  simp [isOctet] at h
  exact h.2



/-! ## `net.ParseIP` always yields sixteen bytes -/

theorem parseIPv4Loop_length (s : List Char) (prev : Option Char) (val digLen : Nat)
    (fields r : List Nat) (hf : fields.length ≤ 3)
    (h : parseIPv4Loop s prev val digLen fields = some r) : r.length = 4 := by
  induction s generalizing prev val digLen fields with
  | nil =>
    simp only [parseIPv4Loop] at h
    split at h
    · exact absurd h (by simp)
    · simp only [Option.some.injEq] at h
      subst h
      simp
      omega
  | cons c cs ih =>
    simp only [parseIPv4Loop] at h
    split at h
    · split at h
      · exact absurd h (by simp)
      · split at h
        · exact absurd h (by simp)
        · exact ih _ _ _ _ hf h
    · split at h
      · split at h
        · exact absurd h (by simp)
        · split at h
          · exact absurd h (by simp)
          · rename_i h3
            exact ih _ _ _ _ (by simp; omega) h
      · exact absurd h (by simp)

theorem writeAt_length (ip : List Nat) (i : Nat) (bs : List Nat) :
    (writeAt ip i bs).length = ip.length := by
  induction bs generalizing ip i with
  | nil => rfl
  | cons b bs ih => simp [writeAt, ih]

theorem expandLoop_length (n e k : Nat) (ip : List Nat) :
    (expandLoop n e k ip).length = ip.length := by
  induction k generalizing ip with
  | zero => rfl
  | succ k ih => simp [expandLoop, ih]

theorem clearRange_length (start k : Nat) (ip : List Nat) :
    (clearRange start k ip).length = ip.length := by
  induction k generalizing start ip with
  | zero => rfl
  | succ k ih => simp [clearRange, ih]

theorem parseIPv6Loop_length (fuel : Nat) (ip : List Nat) (i : Nat) (e : Option Nat)
    (s : List Char) (st : V6Loop) (h : parseIPv6Loop fuel ip i e s = some st) :
    st.ip.length = ip.length := by
  induction fuel generalizing ip i e s with
  | zero =>
    simp only [parseIPv6Loop, Option.some.injEq] at h
    subst h; rfl
  | succ fuel ih =>
    unfold parseIPv6Loop at h
    split at h
    · simp only [Option.some.injEq] at h
      subst h; rfl
    · split at h
      · exact absurd h (by simp)
      · split at h
        · exact absurd h (by simp)
        · split at h
          · split at h
            · exact absurd h (by simp)
            · split at h
              · exact absurd h (by simp)
              · split at h
                · exact absurd h (by simp)
                · simp only [Option.some.injEq] at h
                  subst h
                  simp [writeAt_length]
          · split at h
            · simp only [Option.some.injEq] at h
              subst h
              simp
            · split at h
              · exact absurd h (by simp)
              · split at h
                · exact absurd h (by simp)
                · split at h
                  · split at h
                    · exact absurd h (by simp)
                    · split at h
                      · simp only [Option.some.injEq] at h
                        subst h
                        simp
                      · have := ih _ _ _ _ h
                        simpa using this
                  · have := ih _ _ _ _ h
                    simpa using this


/-- Fuel beyond what the bound `i < 16` allows changes nothing: the loop of
`netip.parseIPv6` ends by itself. -/
theorem parseIPv6Loop_fuel (fuel : Nat) (ip : List Nat) (i : Nat) (e : Option Nat)
    (s : List Char) (h : 16 ≤ i + 2 * fuel) :
    parseIPv6Loop (fuel + 1) ip i e s = parseIPv6Loop fuel ip i e s := by
  induction fuel generalizing ip i e s with
  | zero =>
    have hi : ¬ i < 16 := by omega
    simp [parseIPv6Loop, hi]
  | succ fuel ih =>
    have e1 : ∀ (ip : List Nat) (e : Option Nat) (s : List Char),
        parseIPv6Loop (fuel + 1) ip (i + 2) e s = parseIPv6Loop fuel ip (i + 2) e s :=
      fun ip e s => ih ip (i + 2) e s (by omega)
    conv_lhs => unfold parseIPv6Loop
    conv_rhs => unfold parseIPv6Loop
    simp only [e1]

/-- Eight units of fuel are as good as any larger amount from the start of the text. -/
theorem parseIPv6Loop_fuel_enough (k : Nat) (ip : List Nat) (e : Option Nat) (s : List Char) :
    parseIPv6Loop (8 + k) ip 0 e s = parseIPv6Loop 8 ip 0 e s := by
  induction k with
  | zero => rfl
  | succ k ih =>
    rw [← ih]
    exact parseIPv6Loop_fuel (8 + k) ip 0 e s (by omega)



theorem parseIPv6Body_length (s zone : List Char) (a : Addr)
    (h : parseIPv6Body s zone = some a) : a.as16.length = 16 := by
  unfold parseIPv6Body at h
  simp only at h
  split at h
  · simp only [Option.some.injEq] at h
    subst h; simp
  · split at h
    · exact absurd h (by simp)
    · rename_i st hst
      have hlen := parseIPv6Loop_length _ _ _ _ _ _ hst
      simp only [List.length_replicate] at hlen
      split at h
      · exact absurd h (by simp)
      · split at h
        · split at h
          · exact absurd h (by simp)
          · simp only [Option.some.injEq] at h
            subst h
            simp [clearRange_length, expandLoop_length, hlen]
        · split at h
          · exact absurd h (by simp)
          · simp only [Option.some.injEq] at h
            subst h
            exact hlen

theorem parseIPv6_length (s : List Char) (a : Addr) (h : parseIPv6 s = some a) :
    a.as16.length = 16 := by
  unfold parseIPv6 at h
  split at h
  · exact parseIPv6Body_length _ _ _ h
  · split at h
    · exact absurd h (by simp)
    · exact parseIPv6Body_length _ _ _ h

theorem parseIPv4_length (s : List Char) (a : Addr) (h : parseIPv4 s = some a) :
    a.as16.length = 16 := by
  unfold parseIPv4 at h
  cases hf : parseIPv4Fields s with
  | none => rw [hf] at h; exact absurd h (by simp)
  | some fields =>
    rw [hf] at h
    simp only [Option.map_some', Option.some.injEq] at h
    subst h
    have := parseIPv4Loop_length s none 0 0 [] fields (by simp) hf
    simp [addrFrom4, this]

theorem parseAddrScan_length (whole s : List Char) (a : Addr)
    (h : parseAddrScan whole s = some a) : a.as16.length = 16 := by
  induction s with
  | nil => exact absurd h (by simp [parseAddrScan])
  | cons c cs ih =>
    simp only [parseAddrScan] at h
    split at h
    · exact parseIPv4_length _ _ h
    · split at h
      · exact parseIPv6_length _ _ h
      · split at h
        · exact absurd h (by simp)
        · exact ih h

/-- An address that `net.ParseIP` accepts comes back in 16-byte form. -/
theorem parseIP_length (s : List Char) (ip : List Nat) (h : parseIP s = some ip) :
    ip.length = 16 := by
  unfold parseIP at h
  split at h
  · exact absurd h (by simp)
  · rename_i a ha
    split at h
    · exact absurd h (by simp)
    · simp only [Option.some.injEq] at h
      subst h
      exact parseAddrScan_length _ _ _ ha



/-! ## Claims about the resolver and the entry point -/

/-- C1 (as stated, refuted): the resolver hands back `999.999.999.999`, which the first
IPv4 provider sent with status 200, although `isValidIP` rejects it for `v4`. -/
theorem getPublicIP_unvalidated :
    (getPublicIP (always200 "999.999.999.999".toList) "v4" false).1 =
        ⟨"999.999.999.999".toList, none⟩ ∧
      isValidIP "999.999.999.999".toList "v4" = false := by
  decide

/-- C1 (amended): an address that `getPublicIP` returns without error is non-empty and
is the leftmost match of the family's extraction pattern in the trimmed status-200 body
of one of the family's providers; it is not checked with `isValidIP`. -/
theorem getPublicIP_ok_is_extracted (net : Network) (ipType : String) (skipTLS : Bool)
    (hfam : ipType = "v4" ∨ ipType = "v6")
    (hok : (getPublicIP net ipType skipTLS).1.err = none) :
    (getPublicIP net ipType skipTLS).1.ip ≠ [] ∧
      ∃ url ∈ servicesFor ipType, ∃ body,
        net url skipTLS = HttpResult.response 200 (some body) ∧
        (getPublicIP net ipType skipTLS).1.ip =
          findString (patternFor ipType) (trimSpace body) := by
  have key : ∀ (failure : GoError) (l : List String),
      (tryServices net ipType skipTLS failure l).1.err = none →
      (tryServices net ipType skipTLS failure l).1.ip ≠ [] ∧
      ∃ url ∈ l, ∃ body, net url skipTLS = HttpResult.response 200 (some body) ∧
        (tryServices net ipType skipTLS failure l).1.ip =
          findString (patternFor ipType) (trimSpace body) := by
    intro failure l h
    obtain ⟨url, hu, h1, h2⟩ := tryServices_ok net ipType skipTLS failure l h
    rcases fetch_cases net url ipType skipTLS with ⟨h3, _⟩ | ⟨body, hb, hne, heq⟩
    · exact absurd h1 h3
    · rw [h2, heq]
      exact ⟨hne, url, hu, body, hb, rfl⟩
  rcases hfam with rfl | rfl
  · exact key GoError.allV4Failed servicesV4 hok
  · exact key GoError.allV6Failed servicesV6 hok

/-- The amended C1 at the network that answers `999.999.999.999` to every request. -/
theorem getPublicIP_ok_is_extracted_witness :
    (getPublicIP (always200 "999.999.999.999".toList) "v4" false).1.ip ≠ [] ∧
      ∃ url ∈ servicesFor "v4", ∃ body,
        always200 "999.999.999.999".toList url false = HttpResult.response 200 (some body) ∧
        (getPublicIP (always200 "999.999.999.999".toList) "v4" false).1.ip =
          findString (patternFor "v4") (trimSpace body) :=
  getPublicIP_ok_is_extracted (always200 "999.999.999.999".toList) "v4" false
    (Or.inl rfl) (by decide)

/-- C2: when the probe of every provider of the family fails, `getPublicIP` returns an
error and the empty address, after probing the whole list. -/
theorem getPublicIP_all_providers_fail (net : Network) (ipType : String) (skipTLS : Bool)
    (hfam : ipType = "v4" ∨ ipType = "v6")
    (hfail : ∀ url ∈ servicesFor ipType,
      (fetchIPFromService net url ipType skipTLS).err ≠ none) :
    (getPublicIP net ipType skipTLS).1.ip = [] ∧
      (getPublicIP net ipType skipTLS).1.err ≠ none ∧
      (getPublicIP net ipType skipTLS).2 = servicesFor ipType := by
  rcases hfam with rfl | rfl
  · have h := tryServices_all_fail net "v4" skipTLS GoError.allV4Failed servicesV4 hfail
    have hg : getPublicIP net "v4" skipTLS =
        tryServices net "v4" skipTLS GoError.allV4Failed servicesV4 := rfl
    rw [hg, h]
    exact ⟨rfl, by simp, rfl⟩
  · have h := tryServices_all_fail net "v6" skipTLS GoError.allV6Failed servicesV6 hfail
    have hg : getPublicIP net "v6" skipTLS =
        tryServices net "v6" skipTLS GoError.allV6Failed servicesV6 := rfl
    rw [hg, h]
    exact ⟨rfl, by simp, rfl⟩

/-- C2 at an unreachable network, for `v6` with certificate checks skipped. -/
theorem getPublicIP_all_providers_fail_witness :
    (getPublicIP unreachable "v6" true).1.ip = [] ∧
      (getPublicIP unreachable "v6" true).1.err ≠ none ∧
      (getPublicIP unreachable "v6" true).2 = servicesFor "v6" :=
  getPublicIP_all_providers_fail unreachable "v6" true (Or.inr rfl)
    (fun url _ => by simp [fetchIPFromService, unreachable])

/-- C3: when the probes of the entries before index `k` fail and the probe of entry `k`
succeeds with a candidate valid for the family, `getPublicIP` returns exactly that
candidate, and the probes issued are the entries `0..k` in list order, once each. -/
theorem getPublicIP_first_success (net : Network) (ipType : String) (skipTLS : Bool)
    (k : Nat) (cand : List Char)
    (hfam : ipType = "v4" ∨ ipType = "v6")
    (hk : k < (servicesFor ipType).length)
    (hbefore : ∀ j, j < k →
      (fetchIPFromService net ((servicesFor ipType).getD j "") ipType skipTLS).err ≠ none)
    (hat : fetchIPFromService net ((servicesFor ipType).getD k "") ipType skipTLS =
      ⟨cand, none⟩)
    (_hvalid : isValidIP cand ipType = true) :
    getPublicIP net ipType skipTLS = (⟨cand, none⟩, (servicesFor ipType).take (k + 1)) := by
  rcases hfam with rfl | rfl
  · exact tryServices_first_success net "v4" skipTLS GoError.allV4Failed servicesV4 k cand
      hk hbefore hat
  · exact tryServices_first_success net "v6" skipTLS GoError.allV6Failed servicesV6 k cand
      hk hbefore hat

/-- C3 at the scenario of the specification: the first IPv4 provider times out, the
second answers with a JSON document holding `192.0.2.55`. -/
theorem getPublicIP_first_success_witness :
    getPublicIP timeoutThenJson "v4" false =
      (⟨"192.0.2.55".toList, none⟩, (servicesFor "v4").take (1 + 1)) :=
  getPublicIP_first_success timeoutThenJson "v4" false 1 "192.0.2.55".toList
    (Or.inl rfl) (by decide)
    (fun j hj => by
      have hj0 : j = 0 := by omega
      subst hj0
      decide)
    (by decide) (by decide)

/-- C9: with all required parameters present, the family `v4` or `v6` and a supplied
non-empty address that `isValidIP` rejects for the family, `main` exits with code 1
having probed no provider, built no DNS client and sent no record update. -/
theorem main_rejects_mismatched_address (net : Network) (sdk : DnsSdk) (f : Flags)
    (hreq : f.ak ≠ "" ∧ f.sk ≠ "" ∧ f.projectId ≠ "" ∧ f.regionName ≠ "" ∧ f.zoneId ≠ "" ∧
      f.recordSetId ≠ "")
    (hfam : f.ipType = "v4" ∨ f.ipType = "v6")
    (hip : f.publicIP ≠ [])
    (hbad : isValidIP f.publicIP f.ipType = false) :
    main net sdk f = (1, []) := by
  obtain ⟨h1, h2, h3, h4, h5, h6⟩ := hreq
  have hcur : currentIP net f = (none, []) := by
    simp [currentIP, hip, hbad]
  have hfam2 : ¬ (f.ipType ≠ "v4" ∧ f.ipType ≠ "v6") := by
    rcases hfam with h | h <;> simp [h]
  unfold main
  rw [if_neg (by simp [h1, h2, h3, h4, h5, h6]), if_neg hfam2, hcur]

/-- C9 at the supplied address `2001:db8::5` with family `v4`. -/
theorem main_rejects_mismatched_address_witness :
    main timeoutThenJson okSdk (flagsWith "v4" "2001:db8::5".toList) = (1, []) :=
  main_rejects_mismatched_address timeoutThenJson okSdk (flagsWith "v4" "2001:db8::5".toList)
    (by decide) (Or.inl rfl) (by decide) (by decide)



/-! ## Claims about extraction and validation -/

theorem isGroup_of_isOctet {g : List Char} (h : isOctet g = true) : isGroup g = true := by
  simp [isOctet] at h
  exact h.1.1

theorem delimited_of_mem {pre rest : List Char} {q : Pos}
    (hq : q ∈ reV4.run ⟨prevAt none pre, rest⟩) :
    ∃ a, rest = a ++ q.rest ∧ Delimited pre a q.rest := by
  obtain ⟨a, ha, hr, hw1, hw2, _⟩ := mem_run_reV4.mp hq
  rw [prevAt_none] at hw1
  exact ⟨a, hr, ha, hw1, hw2⟩

theorem wordSide_of_parts {o : Option Char} (hl : letterSide o = false)
    (hd : ∀ c, o = some c → isDigit c = false) : wordSide o = false := by
  cases o with
  | none => rfl
  | some c =>
    have h1 := hd c rfl
    simp only [letterSide, isLetterOrUnderscore, inClass] at hl
    simp only [isDigit] at h1
    simp only [wordSide, isWordChar, inClass]
    simp at hl h1 ⊢
    omega

theorem getLast?_dropWhile {p : Char → Bool} (l : List Char) :
    (l.dropWhile p).getLast? = none ∨ (l.dropWhile p).getLast? = l.getLast? := by
  by_cases h : l.dropWhile p = []
  · left; rw [h]; rfl
  · right
    have := getLast?_append_right (l.takeWhile p) h
    rw [List.takeWhile_append_dropWhile] at this
    exact this.symm

theorem head?_trimRight {p : Char → Bool} (l : List Char) :
    (l.reverse.dropWhile p).reverse.head? = none ∨
      (l.reverse.dropWhile p).reverse.head? = l.head? := by
  rw [List.head?_reverse]
  rcases getLast?_dropWhile (p := p) l.reverse with h | h
  · exact Or.inl h
  · right; rw [h, List.getLast?_reverse]

/-- C4 (the code at the failing inputs): for status-200 bodies that are exactly one
zero-compressed, IPv4-embedding or zoned IPv6 literal, `fetchIPFromService` with `v6`
succeeds but carries only an initial part of the literal, because the second alternative of the
pattern wins under leftmost-first matching. -/
theorem fetch_v6_truncates :
    fetchIPFromService (always200 "2001:db8::1".toList) "http://6.ipw.cn" "v6" false =
        ⟨"2001:db8::".toList, none⟩ ∧
      fetchIPFromService (always200 "::ffff:192.0.2.1".toList) "http://6.ipw.cn" "v6" false =
        ⟨"::ffff:192".toList, none⟩ ∧
      fetchIPFromService (always200 "fe80::1%eth0".toList) "http://6.ipw.cn" "v6" false =
        ⟨"fe80::".toList, none⟩ := by
  decide

/-- C5: for four dot-separated decimal octets, each at most 255 and written without a
leading zero, `isValidIP` is true for `v4` and false for `v6`. -/
theorem isValidIP_v4_literal (g1 g2 g3 g4 : List Char) (h1 : isOctet g1 = true)
    (h2 : isOctet g2 = true) (h3 : isOctet g3 = true) (h4 : isOctet g4 = true) :
    isValidIP (dotted g1 g2 g3 g4) "v4" = true ∧
      isValidIP (dotted g1 g2 g3 g4) "v6" = false := by
  have hp := parseIP_dotted (isGroup_of_isOctet h1) (isGroup_of_isOctet h2)
    (isGroup_of_isOctet h3) (isGroup_of_isOctet h4)
  rw [if_pos ⟨h1, h2, h3, h4⟩] at hp
  constructor
  · simp [isValidIP, hp, to4]
  · simp [isValidIP, hp, to4]

/-- C5 at `203.0.113.7`. -/
theorem isValidIP_v4_literal_witness :
    isValidIP (dotted "203".toList "0".toList "113".toList "7".toList) "v4" = true ∧
      isValidIP (dotted "203".toList "0".toList "113".toList "7".toList) "v6" = false :=
  isValidIP_v4_literal "203".toList "0".toList "113".toList "7".toList
    (by decide) (by decide) (by decide) (by decide)

/-- C6 (as stated, refuted): `::ffff:192.0.2.1` and `::ffff:c000:201` are in IPv6 textual
form and parse as IP addresses, yet `isValidIP` is false for `v6` and true for `v4`. -/
theorem isValidIP_v6_rejects_mapped :
    parseIP "::ffff:192.0.2.1".toList =
        some [0, 0, 0, 0, 0, 0, 0, 0, 0, 0, 255, 255, 192, 0, 2, 1] ∧
      isValidIP "::ffff:192.0.2.1".toList "v6" = false ∧
      isValidIP "::ffff:192.0.2.1".toList "v4" = true ∧
      isValidIP "::ffff:c000:201".toList "v6" = false ∧
      isValidIP "::ffff:c000:201".toList "v4" = true := by
  decide

/-- C6 (amended): for every text that `net.ParseIP` accepts and whose 16-byte form is not
IPv4-mapped (ten zero bytes, then `ff ff`), `isValidIP` is true for `v6` and false for
`v4`. -/
theorem isValidIP_v6_literal (x : List Char) (ip : List Nat) (hparse : parseIP x = some ip)
    (hmapped : isV4Mapped ip = false) :
    isValidIP x "v6" = true ∧ isValidIP x "v4" = false := by
  have hlen := parseIP_length x ip hparse
  have hto4 : to4 ip = none := by
    unfold to4
    rw [if_neg (by omega), if_neg]
    intro h
    have hm : isV4Mapped ip = true := by
      unfold isV4Mapped
      rw [h.2.1, h.2.2.1, h.2.2.2]
      rfl
    rw [hm] at hmapped
    exact absurd hmapped (by simp)
  have hto16 : to16 ip = some ip := by
    unfold to16
    rw [if_neg (by omega), if_pos hlen]
  constructor
  · simp [isValidIP, hparse, hto4, hto16]
  · simp [isValidIP, hparse, hto4]

/-- The amended C6 at `2001:db8::1`. -/
theorem isValidIP_v6_literal_witness :
    isValidIP "2001:db8::1".toList "v6" = true ∧ isValidIP "2001:db8::1".toList "v4" = false :=
  isValidIP_v6_literal "2001:db8::1".toList
    [0x20, 0x01, 0x0d, 0xb8, 0, 0, 0, 0, 0, 0, 0, 0, 0, 0, 0, 1] (by decide) (by decide)

/-- C7: for four dot-separated groups of one to three digits of which one has a value
above 255, sent as the whole status-200 body, the `v4` extraction succeeds and returns
the text, while `isValidIP` rejects it for `v4`. -/
theorem out_of_range_extracted_then_rejected (net : Network) (url : String) (skipTLS : Bool)
    (g1 g2 g3 g4 : List Char) (h1 : isGroup g1 = true) (h2 : isGroup g2 = true)
    (h3 : isGroup g3 = true) (h4 : isGroup g4 = true)
    (hbig : groupValue g1 > 255 ∨ groupValue g2 > 255 ∨ groupValue g3 > 255 ∨
      groupValue g4 > 255)
    (hnet : net url skipTLS = HttpResult.response 200 (some (dotted g1 g2 g3 g4))) :
    fetchIPFromService net url "v4" skipTLS = ⟨dotted g1 g2 g3 g4, none⟩ ∧
      isValidIP (dotted g1 g2 g3 g4) "v4" = false := by
  have hrun : IsRun (dotted g1 g2 g3 g4) := ⟨g1, g2, g3, g4, h1, h2, h3, h4, rfl⟩
  constructor
  · apply fetch_v4_found hnet _ (isRun_ne_nil hrun)
    have ht := trimSpace_run [] [] hrun
    simp only [List.nil_append, List.append_nil, List.dropWhile_nil, List.reverse_nil] at ht
    rw [ht]
    have := @findFrom_reV4_after_nondigits [] (dotted g1 g2 g3 g4) [] hrun
      (by simp) rfl rfl
    simpa using this
  · have hp := parseIP_dotted h1 h2 h3 h4
    rw [if_neg] at hp
    · simp [isValidIP, hp]
    · rintro ⟨o1, o2, o3, o4⟩
      have := isOctet_value_le o1
      have := isOctet_value_le o2
      have := isOctet_value_le o3
      have := isOctet_value_le o4
      omega

/-- C7 at `999.999.999.999`. -/
theorem out_of_range_extracted_then_rejected_witness :
    fetchIPFromService (always200 "999.999.999.999".toList) "http://cip.cc" "v4" false =
        ⟨dotted "999".toList "999".toList "999".toList "999".toList, none⟩ ∧
      isValidIP (dotted "999".toList "999".toList "999".toList "999".toList) "v4" = false :=
  out_of_range_extracted_then_rejected (always200 "999.999.999.999".toList) "http://cip.cc"
    false "999".toList "999".toList "999".toList "999".toList
    (by decide) (by decide) (by decide) (by decide) (Or.inl (by decide)) (by decide)

/-- C8: for a status-200 body `pre ++ a ++ post` where `a` is four dot-separated groups
of one to three digits, `pre` has no decimal digit and does not end in an ASCII letter or
underscore, and `post` does not begin with an ASCII letter, digit or underscore,
`fetchIPFromService` with `v4` succeeds carrying exactly `a`. -/
theorem fetch_v4_embedded (net : Network) (url : String) (skipTLS : Bool)
    (pre a post : List Char) (ha : IsRun a)
    (hpre : ∀ c ∈ pre, isDigit c = false)
    (hlast : letterSide pre.getLast? = false)
    (hpost : wordSide post.head? = false)
    (hnet : net url skipTLS = HttpResult.response 200 (some (pre ++ a ++ post))) :
    fetchIPFromService net url "v4" skipTLS = ⟨a, none⟩ := by
  apply fetch_v4_found hnet _ (isRun_ne_nil ha)
  rw [trimSpace_run pre post ha]
  apply findFrom_reV4_after_nondigits ha
  · intro c hc
    exact hpre c ((List.dropWhile_sublist _).subset hc)
  · rcases getLast?_dropWhile (p := isSpace) pre with h | h
    · rw [h]; rfl
    · rw [h]
      apply wordSide_of_parts hlast
      intro c hc
      exact hpre c (List.mem_of_getLast?_eq_some hc)
  · rcases head?_trimRight (p := isSpace) post with h | h
    · rw [h]; rfl
    · rw [h]; exact hpost

/-- C8 at the two bodies of the specification: noisy text and a JSON document. -/
theorem fetch_v4_embedded_witness :
    fetchIPFromService (always200 "your ip is 198.51.100.23 as of now".toList)
        "http://cip.cc" "v4" false = ⟨"198.51.100.23".toList, none⟩ ∧
      fetchIPFromService (always200 "\x7b\"ip\":\"192.0.2.55\"\x7d".toList)
        "http://cip.cc" "v4" false = ⟨"192.0.2.55".toList, none⟩ :=
  ⟨fetch_v4_embedded (always200 "your ip is 198.51.100.23 as of now".toList) "http://cip.cc"
      false "your ip is ".toList "198.51.100.23".toList " as of now".toList
      ⟨"198".toList, "51".toList, "100".toList, "23".toList, by decide, by decide, by decide,
        by decide, by decide⟩
      (by decide) (by decide) (by decide) (by decide),
    fetch_v4_embedded (always200 "\x7b\"ip\":\"192.0.2.55\"\x7d".toList) "http://cip.cc"
      false "\x7b\"ip\":\"".toList "192.0.2.55".toList "\"\x7d".toList
      ⟨"192".toList, "0".toList, "2".toList, "55".toList, by decide, by decide, by decide,
        by decide, by decide⟩
      (by decide) (by decide) (by decide) (by decide)⟩

/-- C10 (as stated, refuted): the body `a1.2.3.4` contains the run `1.2.3.4`, yet the
`v4` probe fails with no address found, since `\b` does not hold between `a` and `1`. -/
theorem fetch_v4_misses_run_after_letter :
    (∃ pre a post, "a1.2.3.4".toList = pre ++ a ++ post ∧ IsRun a) ∧
      fetchIPFromService (always200 "a1.2.3.4".toList) "http://cip.cc" "v4" false =
        ⟨[], some GoError.noAddress⟩ :=
  ⟨⟨"a".toList, "1.2.3.4".toList, [], by decide,
    "1".toList, "2".toList, "3".toList, "4".toList, by decide, by decide, by decide,
    by decide, by decide⟩, by decide⟩

/-- C10 (amended): on a status-200 body, the `v4` probe looks only at runs of four
dot-separated groups of one to three digits that no ASCII letter, digit or underscore
touches on either side.  When the trimmed body contains such a run it succeeds and
returns the leftmost one; it fails with no address found when the trimmed body contains
none. -/
theorem fetch_v4_leftmost_delimited (net : Network) (url : String) (skipTLS : Bool)
    (body : List Char) (hnet : net url skipTLS = HttpResult.response 200 (some body)) :
    (∀ pre a post, trimSpace body = pre ++ a ++ post → Delimited pre a post →
        (∀ pre2 a2 post2, trimSpace body = pre2 ++ a2 ++ post2 → Delimited pre2 a2 post2 →
          pre.length ≤ pre2.length) →
        fetchIPFromService net url "v4" skipTLS = ⟨a, none⟩) ∧
      ((¬ ∃ pre a post, trimSpace body = pre ++ a ++ post ∧ Delimited pre a post) →
        fetchIPFromService net url "v4" skipTLS = ⟨[], some GoError.noAddress⟩) := by
  constructor
  · intro pre a post hbody hdel hleft
    apply fetch_v4_found hnet _ (isRun_ne_nil hdel.1)
    rw [hbody, List.append_assoc]
    apply findFrom_first
    · intro pre1 rest1 hs hlt
      apply List.eq_nil_iff_forall_not_mem.mpr
      intro q hq
      obtain ⟨a1, hr, hd⟩ := delimited_of_mem hq
      have := hleft pre1 a1 q.rest (by rw [hbody, List.append_assoc, hs, hr,
        List.append_assoc]) hd
      omega
    · rw [prevAt_none]
      exact matchHere_reV4 hdel.1 hdel.2.1 hdel.2.2
  · intro hnone
    apply fetch_v4_not_found hnet
    apply findFrom_eq_none
    intro pre rest hs
    apply List.eq_nil_iff_forall_not_mem.mpr
    intro q hq
    obtain ⟨a1, hr, hd⟩ := delimited_of_mem hq
    exact hnone ⟨pre, a1, q.rest, by rw [hs, hr, List.append_assoc], hd⟩

/-- The amended C10 at a body with two delimited runs, and at a body of white space. -/
theorem fetch_v4_leftmost_delimited_witness :
    fetchIPFromService (always200 "203.0.113.7 then 198.51.100.23".toList) "http://cip.cc"
        "v4" false = ⟨"203.0.113.7".toList, none⟩ ∧
      fetchIPFromService (always200 " \t ".toList) "http://cip.cc" "v4" false =
        ⟨[], some GoError.noAddress⟩ :=
  ⟨(fetch_v4_leftmost_delimited (always200 "203.0.113.7 then 198.51.100.23".toList)
      "http://cip.cc" false "203.0.113.7 then 198.51.100.23".toList rfl).1
      [] "203.0.113.7".toList " then 198.51.100.23".toList (by decide)
      ⟨⟨"203".toList, "0".toList, "113".toList, "7".toList, by decide, by decide, by decide,
        by decide, by decide⟩, by decide, by decide⟩
      (fun _ _ _ _ _ => Nat.zero_le _),
    (fetch_v4_leftmost_delimited (always200 " \t ".toList) "http://cip.cc" false
      " \t ".toList rfl).2
      (by
        rintro ⟨pre, a, post, h, hd⟩
        have ht : trimSpace " \t ".toList = [] := by decide
        rw [ht] at h
        have ha : a = [] := by
          cases a with
          | nil => rfl
          | cons c t => simp at h
        exact isRun_ne_nil hd.1 ha)⟩

end Hwddns
